import Mathlib

/-!
Verification development for the ARGUS normalization-and-correlation engine
(`src/containerapp/ai_ocr/polygon_matcher.py` and
`src/containerapp/ai_ocr/azure/mistral_doc_intelligence.py`).

The Python functions are shallowly embedded as executable Lean definitions:
Python strings become `String`, Python numbers become `ℚ` (floats are modelled
exactly as rationals; no theorem depends on float rounding), Python `None`
and heterogeneous JSON-like values become the `PyVal` inductive, and the
match dictionaries produced by the matcher become the `Match` structure whose
optional entries (`confidence`, `similarity`, ...) are `Option ℚ`, mirroring
`dict.get` returning `None` for absent keys.
-/

/-! ## Python string primitives -/

/-- Whitespace characters stripped by Python `str.strip()` / split by
`str.split()` (the ASCII subset; the sources only ever produce ASCII keys). -/
def isPySpace (c : Char) : Bool :=
  c = ' ' || c = '\t' || c = '\n' || c = '\r' || c = '\x0b' || c = '\x0c'

/-- Python `str.lower()` (ASCII case folding). -/
def pyLower (s : String) : String :=
  String.mk (s.data.map Char.toLower)

/-- Python `str.strip()` with no arguments: drop leading and trailing whitespace. -/
def pyStrip (s : String) : String :=
  String.mk (((s.data.dropWhile isPySpace).reverse.dropWhile isPySpace).reverse)

/-- Python `str.replace(old, new)` for single-character `old`/`new`. -/
def pyReplaceChar (s : String) (old new : Char) : String :=
  String.mk (s.data.map (fun c => if c = old then new else c))

/-- Helper for `pySplit`: accumulates the current word (reversed) while
scanning the character list. -/
def pySplitAux : List Char → List Char → List String
  | [], [] => []
  | [], acc => [String.mk acc.reverse]
  | c :: rest, acc =>
      if isPySpace c then
        if acc.isEmpty then pySplitAux rest []
        else String.mk acc.reverse :: pySplitAux rest []
      else pySplitAux rest (c :: acc)

/-- Python `str.split()` with no arguments: split on whitespace runs,
producing no empty words. -/
def pySplit (s : String) : List String :=
  pySplitAux s.data []

/-- Python `needle in haystack` helper: does `l` start with `p`? -/
def listStartsWith : List Char → List Char → Bool
  | [], _ => true
  | _ :: _, [] => false
  | a :: as, b :: bs => a = b && listStartsWith as bs

/-- Python substring test `needle in haystack` on character lists
(`"" in s` is `True`, as in Python). -/
def listContainsSub : List Char → List Char → Bool
  | needle, [] => needle.isEmpty
  | needle, h :: hs => listStartsWith needle (h :: hs) || listContainsSub needle hs

/-- Python substring test `a in b` on strings. -/
def pyContains (a b : String) : Bool :=
  listContainsSub a.data b.data

/-- Python `s.startswith(p)`. -/
def pyStartsWith (s p : String) : Bool :=
  listStartsWith p.data s.data

/-! ## rapidfuzz similarity primitives

`fuzz.ratio` is the normalized Indel similarity:
`100 * (1 - dist/(|a|+|b|))` where the Indel distance is
`|a| + |b| - 2 * lcs(a, b)`, hence `ratio = 200 * lcs / (|a|+|b|)`
(and `100` when both strings are empty). -/

/-- Length of a longest common subsequence, with a structural fuel argument
so that the definition reduces inside the kernel.  Each recursive call
strictly shrinks the combined length, so fuel `|a| + |b|` always suffices. -/
def lcsLenFuel : Nat → List Char → List Char → Nat
  | 0, _, _ => 0
  | _ + 1, [], _ => 0
  | _ + 1, _ :: _, [] => 0
  | fuel + 1, a :: as, b :: bs =>
      if a = b then 1 + lcsLenFuel fuel as bs
      else max (lcsLenFuel fuel (a :: as) bs) (lcsLenFuel fuel as (b :: bs))

/-- Length of a longest common subsequence of two character lists. -/
def lcsLen (a b : List Char) : Nat :=
  lcsLenFuel (a.length + b.length) a b

/-- rapidfuzz `fuzz.ratio` as an exact rational in `[0, 100]`:
`200·lcs/(|a|+|b|)`, built with `mkRat` (equal to the division, since the
denominator is nonzero in this branch). -/
def fuzzScore (a b : String) : ℚ :=
  if a.data.length + b.data.length = 0 then 100
  else mkRat (200 * (lcsLen a.data b.data)) (a.data.length + b.data.length)

/-- All contiguous sublists of `l` (used to express the best-alignment
window search of `fuzz.partial_ratio`). -/
def contiguousSublists (l : List Char) : List (List Char) :=
  l.tails.flatMap List.inits

/-- rapidfuzz `fuzz.partial_ratio`: the best `fuzz.ratio` of the needle
against a contiguous window of the haystack.  In the matcher it is only
evaluated when the needle is a literal substring of the haystack, where it
equals `100` exactly as in rapidfuzz. -/
def fuzzPartialScore (a b : String) : ℚ :=
  ((contiguousSublists b.data).map
      (fun w => fuzzScore a (String.mk w))).foldr max 0

/-! ## Python value model

`PyVal` models the JSON-like Python values flowing through the matcher and
the enricher: `None`, booleans, numbers (as exact rationals), strings,
lists and (insertion-ordered) dicts. -/

inductive PyVal where
  | vnull : PyVal
  | vbool (b : Bool) : PyVal
  | vnum (q : ℚ) : PyVal
  | vstr (s : String) : PyVal
  | varr (items : List PyVal) : PyVal
  | vobj (fields : List (String × PyVal)) : PyVal

/-- First-match key lookup in the field list of a dict (Python dicts have unique
keys; `lookupJ` reads the first binding, as `dict.__getitem__` would). -/
def lookupJ : List (String × PyVal) → String → Option PyVal
  | [], _ => none
  | (k, v) :: rest, key => if k = key then some v else lookupJ rest key

/-- Key lookup on a `PyVal` (only dicts have keys). -/
def jGet (v : PyVal) (key : String) : Option PyVal :=
  match v with
  | PyVal.vobj fields => lookupJ fields key
  | _ => none

/-- Python truthiness: `None`, `False`, `0`, `""`, `[]`, `{}` are falsy. -/
def pyTruthy : PyVal → Bool
  | PyVal.vnull => false
  | PyVal.vbool b => b
  | PyVal.vnum q => q ≠ 0
  | PyVal.vstr s => s ≠ ""
  | PyVal.varr items => !items.isEmpty
  | PyVal.vobj fields => !fields.isEmpty

/-- Python `str`/`repr` of a number.  Integer-valued rationals print as
Python ints; Python float decimal formatting is not modelled (no theorem
depends on the non-integral case). -/
def ratStr (q : ℚ) : String :=
  if q.den = 1 then toString q.num
  else toString q.num ++ "/" ++ toString q.den

mutual
/-- Python `repr` of a value (string escaping inside `repr` of strings is
not modelled; no theorem depends on it). -/
def pythonRepr : PyVal → String
  | PyVal.vnull => "None"
  | PyVal.vbool b => if b then "True" else "False"
  | PyVal.vnum q => ratStr q
  | PyVal.vstr s => "\x27" ++ s ++ "\x27"
  | PyVal.varr items => "[" ++ String.intercalate ", " (reprItems items) ++ "]"
  | PyVal.vobj fields => "\x7b" ++ String.intercalate ", " (reprFields fields) ++ "\x7d"

def reprItems : List PyVal → List String
  | [] => []
  | v :: rest => pythonRepr v :: reprItems rest

def reprFields : List (String × PyVal) → List String
  | [] => []
  | (k, v) :: rest => ("\x27" ++ k ++ "\x27: " ++ pythonRepr v) :: reprFields rest
end

/-- Python `str(value)`: the identity on strings, `repr` otherwise
(containers stringify their elements with `repr`, exactly as Python does). -/
def pythonStr : PyVal → String
  | PyVal.vstr s => s
  | v => pythonRepr v

/-- Is the value a dict? (`isinstance(value, dict)`). -/
def isObj : PyVal → Bool
  | PyVal.vobj _ => true
  | _ => false

/-- Is the value a list? (`isinstance(value, list)`). -/
def isArr : PyVal → Bool
  | PyVal.varr _ => true
  | _ => false

/-- A scalar in the sense used by the enricher: neither a dict nor a list. -/
def isScalar (v : PyVal) : Bool :=
  !isObj v && !isArr v

/-! ## Matcher data model (`polygon_matcher.py`)

The Document Intelligence payloads are dictionaries read through defensive
`dict.get` calls with defaults (empty string, `[]`, `1`, `None`).  The structures
below model those dictionaries with the defaults already applied, which is
observationally identical to the Python access pattern. -/

/-- One bounding polygon attached to the value side of a key-value pair:
`{"points": [...], "pageNumber": n}`. -/
structure PolygonRef where
  points : List ℚ
  pageNumber : Int
deriving Repr

/-- One Document Intelligence key-value pair:
`{"key": {"content": ...}, "value": {"content": ..., "boundingPolygons": [...]}, "confidence": ...}`. -/
structure KVPair where
  keyContent : String
  valueContent : String
  valueBoundingPolygons : List PolygonRef
  confidence : Option ℚ
deriving Repr

/-- One OCR word: `{"content": ..., "pageNumber": ..., "points": ..., "confidence": ...}`. -/
structure OcrWord where
  content : String
  pageNumber : Int
  points : List ℚ
  confidence : Option ℚ
deriving Repr

/-- One OCR line: `{"content": ..., "pageNumber": ..., "points": ...}`. -/
structure OcrLine where
  content : String
  pageNumber : Int
  points : List ℚ
deriving Repr

/-- The canonical polygon data consumed by the matcher (the SpatialIndex of the spec).  Of `paragraphs` only the collection size is ever read
(for the enrichment report), so it is modelled by its length. -/
structure PolygonData where
  keyValuePairs : List KVPair
  words : List OcrWord
  lines : List OcrLine
  paragraphs : Nat
deriving Repr

/-- A candidate match dictionary.  Keys that a given producer does not set
(`similarity` on key-value matches, `keySimilarity`/`valueSimilarity` on
fuzzy matches) are `none`, matching `dict.get` on the Python dicts. -/
structure Match where
  points : List ℚ
  pageNumber : Int
  confidence : Option ℚ
  source : String
  matchedContent : String
  keySimilarity : Option ℚ
  valueSimilarity : Option ℚ
  similarity : Option ℚ
deriving Repr, Inhabited

/-- Python `normalize_key`: lowercase, replace `_` and `-` by spaces, strip. -/
def normalize_key (key : String) : String :=
  pyStrip (pyReplaceChar (pyReplaceChar (pyLower key) '_' ' ') '-' ' ')

/-- Python `find_key_value_polygon`: Pass 1, structured key-value matching. -/
def find_key_value_polygon (field_name : String) (field_value : PyVal)
    (key_value_pairs : List KVPair) (threshold : ℚ) : List Match :=
  let normalized_field_name := normalize_key field_name
  let str_field_value := if pyTruthy field_value then pyStrip (pythonStr field_value) else ""
  key_value_pairs.flatMap (fun kv_pair =>
    let key_similarity := fuzzScore normalized_field_name (normalize_key kv_pair.keyContent)
    if key_similarity ≥ threshold then
      let value_similarity :=
        if str_field_value ≠ "" ∧ kv_pair.valueContent ≠ "" then
          fuzzScore (pyLower str_field_value) (pyLower kv_pair.valueContent)
        else 0
      if value_similarity ≥ threshold ∨ str_field_value = "" then
        kv_pair.valueBoundingPolygons.map (fun polygon =>
          { points := polygon.points
            pageNumber := polygon.pageNumber
            confidence := kv_pair.confidence
            source := "doc_intelligence_kv"
            matchedContent := kv_pair.valueContent
            keySimilarity := some key_similarity
            valueSimilarity := some value_similarity
            similarity := none })
      else []
    else [])

/-- The `fuzzy_match_line` dictionary built in `find_fuzzy_match_polygons`. -/
def lineFuzzyMatch (line : OcrLine) (similarity : ℚ) : Match :=
  { points := line.points
    pageNumber := line.pageNumber
    confidence := none
    source := "fuzzy_match_line"
    matchedContent := line.content
    keySimilarity := none
    valueSimilarity := none
    similarity := some similarity }

/-- The `fuzzy_match_line_partial` dictionary built in `find_fuzzy_match_polygons`. -/
def linePartialMatch (line : OcrLine) (similarity : ℚ) : Match :=
  { points := line.points
    pageNumber := line.pageNumber
    confidence := none
    source := "fuzzy_match_line_partial"
    matchedContent := line.content
    keySimilarity := none
    valueSimilarity := none
    similarity := some similarity }

/-- The `fuzzy_match_word` dictionary built in `find_fuzzy_match_polygons`. -/
def wordFuzzyMatch (word : OcrWord) (similarity : ℚ) : Match :=
  { points := word.points
    pageNumber := word.pageNumber
    confidence := word.confidence
    source := "fuzzy_match_word"
    matchedContent := word.content
    keySimilarity := none
    valueSimilarity := none
    similarity := some similarity }

/-- The `fuzzy_match_word_partial` dictionary built in `find_fuzzy_match_polygons`. -/
def wordPartialMatch (word : OcrWord) (similarity : ℚ) : Match :=
  { points := word.points
    pageNumber := word.pageNumber
    confidence := word.confidence
    source := "fuzzy_match_word_partial"
    matchedContent := word.content
    keySimilarity := none
    valueSimilarity := none
    similarity := some similarity }

/-- The per-line body of the Pass 2 line scan (the `for line in lines`
loop): an `if similarity >= threshold / elif search_value in line_content`
cascade, executed only for multi-word search values. -/
def lineScanStep (search_value : String) (threshold : ℚ) (line : OcrLine) : List Match :=
  let line_content := pyLower line.content
  let similarity := fuzzScore search_value line_content
  if similarity ≥ threshold then [lineFuzzyMatch line similarity]
  else if pyContains search_value line_content then
    let pr := fuzzPartialScore search_value line_content
    if pr ≥ threshold then [linePartialMatch line pr] else []
  else []

/-- The per-word body of the Pass 2 word scan (the `for word in words` loop). -/
def wordScanStep (search_value : String) (threshold : ℚ) (word : OcrWord) : List Match :=
  let word_content := pyLower word.content
  if (pySplit search_value).length = 1 then
    let similarity := fuzzScore search_value word_content
    if similarity ≥ threshold then [wordFuzzyMatch word similarity] else []
  else
    (pySplit search_value).flatMap (fun search_word =>
      let similarity := fuzzScore search_word word_content
      if similarity ≥ threshold then [wordPartialMatch word similarity] else [])

/-- Python `find_fuzzy_match_polygons`: Pass 2, fuzzy matching against lines and words. -/
def find_fuzzy_match_polygons (value : String) (words : List OcrWord)
    (lines : List OcrLine) (threshold : ℚ) : List Match :=
  let search_value := pyLower (pyStrip value)
  if search_value = "" then []
  else
    (if (pySplit search_value).length > 1 then
      lines.flatMap (lineScanStep search_value threshold)
    else []) ++
    words.flatMap (wordScanStep search_value threshold)

/-! ## Deduplication (`deduplicate_polygons`) -/

/-- The grouping key: `(tuple(polygon.get("points", [])), polygon.get("pageNumber", 1))`. -/
def matchKey (m : Match) : List ℚ × Int :=
  (m.points, m.pageNumber)

/-- The Python score expression `m.get("confidence") or m.get("similarity") or 0`:
the first *truthy* (non-`None`, nonzero) entry in the `or` chain, else `0`. -/
def pyScore (m : Match) : ℚ :=
  match m.confidence with
  | some c => if c ≠ 0 then c else (match m.similarity with
      | some s => if s ≠ 0 then s else 0
      | none => 0)
  | none => (match m.similarity with
      | some s => if s ≠ 0 then s else 0
      | none => 0)

/-- First-binding lookup in the `seen` association list (insertion-ordered,
as a Python dict). -/
def alookup : List ((List ℚ × Int) × Match) → (List ℚ × Int) → Option Match
  | [], _ => none
  | (k, v) :: rest, key => if k = key then some v else alookup rest key

/-- Replace the value stored at `key` (in place, preserving insertion
order), as `seen[key] = polygon` does on a Python dict. -/
def updateAssoc : List ((List ℚ × Int) × Match) → (List ℚ × Int) → Match →
    List ((List ℚ × Int) × Match)
  | [], _, _ => []
  | (k, v) :: rest, key, m =>
      if k = key then (key, m) :: rest else (k, v) :: updateAssoc rest key m

/-- One iteration of the `for polygon in polygons` loop of `deduplicate_polygons`. -/
def dedupStep (seen : List ((List ℚ × Int) × Match)) (m : Match) :
    List ((List ℚ × Int) × Match) :=
  match alookup seen (matchKey m) with
  | none => seen ++ [(matchKey m, m)]
  | some existing =>
      if pyScore m > pyScore existing then updateAssoc seen (matchKey m) m else seen

/-- Python `deduplicate_polygons`: fold the candidate list through the seen-dict,
then return `list(seen.values())` (insertion order). -/
def deduplicate_polygons (polygons : List Match) : List Match :=
  (polygons.foldl dedupStep []).map Prod.snd

/-! ## `correlate_field_with_polygons` -/

/-- The short-circuit test
`field_value is None or (isinstance(field_value, str) and not field_value.strip())`. -/
def isEmptyFieldValue : PyVal → Bool
  | PyVal.vnull => true
  | PyVal.vstr s => pyStrip s = ""
  | _ => false

/-- Python `correlate_field_with_polygons`: Pass 1, then Pass 2 only when Pass 1
found nothing, then deduplication. -/
def correlate_field_with_polygons (field_name : String) (field_value : PyVal)
    (polygon_data : PolygonData) (threshold : ℚ) : List Match :=
  if isEmptyFieldValue field_value then []
  else
    let kv_matches :=
      find_key_value_polygon field_name field_value polygon_data.keyValuePairs threshold
    let all_matches :=
      kv_matches ++
        (if kv_matches.isEmpty then
          find_fuzzy_match_polygons (pythonStr field_value) polygon_data.words
            polygon_data.lines threshold
        else [])
    deduplicate_polygons all_matches

/-! ## Extraction enricher (`enrich_extraction_with_polygons`)

The Python `process_value` threads a `parent_path` string that is only used
to build deeper path strings (and in no output), so it is omitted here. -/

/-- The `boundingPolygons` JSON value attached to a leaf:
`[{"points": ..., "pageNumber": ...} for p in polygons]`. -/
def bpJson (polygons : List Match) : PyVal :=
  PyVal.varr (polygons.map (fun p =>
    PyVal.vobj [("points", PyVal.varr (p.points.map PyVal.vnum)),
                ("pageNumber", PyVal.vnum (p.pageNumber : ℚ))]))

/-- The leaf record built for a primitive value at a dict position
(the final `else` branch of `process_value`): `{"value": ..., "boundingPolygons": [...]}`
plus `source` and (if truthy) `confidence` from the first match. -/
def scalarLeaf (pd : PolygonData) (threshold : ℚ) (key : String) (value : PyVal) : PyVal :=
  let polygons := correlate_field_with_polygons key value pd threshold
  PyVal.vobj ([("value", value), ("boundingPolygons", bpJson polygons)] ++
    match polygons with
    | [] => []
    | first :: _ =>
        ("source", PyVal.vstr first.source) ::
          (match first.confidence with
           | some c => if c ≠ 0 then [("confidence", PyVal.vnum c)] else []
           | none => []))

/-- The leaf record built for a non-dict element of a list (the array-of-primitives branch of
`process_value`): only `value` and `boundingPolygons`. -/
def arrayLeaf (pd : PolygonData) (threshold : ℚ) (key : String) (item : PyVal) : PyVal :=
  let polygons := correlate_field_with_polygons key item pd threshold
  PyVal.vobj [("value", item), ("boundingPolygons", bpJson polygons)]

mutual
/-- Python `process_value(key, value)`: dicts recurse field-by-field, lists recurse
item-by-item, every other value becomes a leaf record. -/
def processValue (pd : PolygonData) (threshold : ℚ) (key : String) : PyVal → PyVal
  | PyVal.vobj fields => PyVal.vobj (processFields pd threshold fields)
  | PyVal.varr items => PyVal.varr (processItems pd threshold key items)
  | v => scalarLeaf pd threshold key v

/-- Field-by-field recursion over the entries of a dict; each nested value is
re-enriched with its own key as field name. -/
def processFields (pd : PolygonData) (threshold : ℚ) :
    List (String × PyVal) → List (String × PyVal)
  | [] => []
  | (k, v) :: rest => (k, processValue pd threshold k v) :: processFields pd threshold rest

/-- Item-by-item recursion over a list: dict items are enriched as dicts,
all other items (scalars, and nested lists alike) become `arrayLeaf`
records built with the parent key. -/
def processItems (pd : PolygonData) (threshold : ℚ) (key : String) :
    List PyVal → List PyVal
  | [] => []
  | PyVal.vobj fields :: rest =>
      PyVal.vobj (processFields pd threshold fields) :: processItems pd threshold key rest
  | item :: rest => arrayLeaf pd threshold key item :: processItems pd threshold key rest
end

/-- The exclusion set of `enrich_extraction_with_polygons`:
`["error", "error_type", "extraction_failed", "raw_content", "parsing_error"]`. -/
def excludedKeys : List String :=
  ["error", "error_type", "extraction_failed", "raw_content", "parsing_error"]

/-- The top-level field loop of `enrich_extraction_with_polygons`: excluded
keys are copied through verbatim, all others are processed. -/
def enrichFields (pd : PolygonData) (threshold : ℚ)
    (extracted : List (String × PyVal)) : List (String × PyVal) :=
  extracted.map (fun kv =>
    if kv.1 ∈ excludedKeys then kv else (kv.1, processValue pd threshold kv.1 kv.2))

/-- The leaf-marker test `"value" in value and "boundingPolygons" in value`. -/
def hasLeafMarkers (fields : List (String × PyVal)) : Bool :=
  (lookupJ fields "value").isSome && (lookupJ fields "boundingPolygons").isSome

mutual
/-- Python `count_fields`: total leaf fields.  Only dicts contribute; `_`-prefixed
keys are skipped; a dict value with both leaf markers counts as one leaf,
other dict values recurse, list values recurse item-wise, and any other
value counts as one leaf. -/
def count_fields : PyVal → Nat
  | PyVal.vobj fields => cfFields fields
  | _ => 0

def cfFields : List (String × PyVal) → Nat
  | [] => 0
  | (k, v) :: rest =>
      (if pyStartsWith k "_" then 0
       else
         match v with
         | PyVal.vobj gs => if hasLeafMarkers gs then 1 else cfFields gs
         | PyVal.varr items => cfItems items
         | _ => 1) + cfFields rest

def cfItems : List PyVal → Nat
  | [] => 0
  | item :: rest => count_fields item + cfItems rest
end

mutual
/-- Python `count_fields_with_polygons`: leaves whose `boundingPolygons` entry is
truthy (non-empty).  Non-dict, non-list values contribute nothing. -/
def count_fields_with_polygons : PyVal → Nat
  | PyVal.vobj fields => cfpFields fields
  | _ => 0

def cfpFields : List (String × PyVal) → Nat
  | [] => 0
  | (k, v) :: rest =>
      (if pyStartsWith k "_" then 0
       else
         match v with
         | PyVal.vobj gs =>
             if hasLeafMarkers gs then
               (match lookupJ gs "boundingPolygons" with
                | some bp => if pyTruthy bp then 1 else 0
                | none => 0)
             else cfpFields gs
         | PyVal.varr items => cfpItems items
         | _ => 0) + cfpFields rest

def cfpItems : List PyVal → Nat
  | [] => 0
  | item :: rest => count_fields_with_polygons item + cfpItems rest
end

/-- The `_polygonMetadata` report.  In Python it is attached to the enriched
dict under the `_`-prefixed key `_polygonMetadata`; both counting walks are
run before the attachment and skip `_`-prefixed keys, so returning the pair
(enriched fields, report) is observationally the same. -/
structure EnrichReport where
  totalFields : Nat
  fieldsWithPolygons : Nat
  correlationThreshold : ℚ
  wordsAvailable : Nat
  linesAvailable : Nat
  keyValuePairsAvailable : Nat
  paragraphsAvailable : Nat
deriving Repr

/-- Python `enrich_extraction_with_polygons`: enrich all top-level fields, then
compute the coverage report. -/
def enrich_extraction_with_polygons (extracted : List (String × PyVal))
    (pd : PolygonData) (threshold : ℚ) : List (String × PyVal) × EnrichReport :=
  let enriched := enrichFields pd threshold extracted
  (enriched,
    { totalFields := count_fields (PyVal.vobj enriched)
      fieldsWithPolygons := count_fields_with_polygons (PyVal.vobj enriched)
      correlationThreshold := threshold
      wordsAvailable := pd.words.length
      linesAvailable := pd.lines.length
      keyValuePairsAvailable := pd.keyValuePairs.length
      paragraphsAvailable := pd.paragraphs })

/-! ## Mistral provider (`mistral_doc_intelligence.py`) -/

/-- Python `normalize_mistral_bbox`: a 4-number `[x, y, w, h]` box expands to the
8 corner values; every other shape — the empty list (`if not bbox`), an
8-number polygon, and any other length — is returned unchanged, so those
source branches collapse into the catch-all. -/
def normalize_mistral_bbox : List ℚ → List ℚ
  | [x, y, w, h] => [x, y, x + w, y, x + w, y + h, x, y + h]
  | bbox => bbox

/-- The markdown fragments collected by the `pages` branch of
`get_ocr_results`: pages that are dicts carrying a `markdown` key contribute
their markdown, other pages are skipped.  A non-string `markdown` value
would make the Python `join` on `"\n\n"` raise a `TypeError`, modelled as `none`. -/
def markdownParts : List PyVal → Option (List String)
  | [] => some []
  | PyVal.vobj fields :: rest =>
      (match lookupJ fields "markdown" with
       | some (PyVal.vstr s) => (markdownParts rest).map (fun ps => s :: ps)
       | some _ => none
       | none => markdownParts rest)
  | _ :: rest => markdownParts rest

/-- The chain `choices[0].get("message", {}).get("content", "")`.  A non-dict
`choices[0]` or `message` makes `.get` raise, and a non-string `content`
breaks the string contract of the function downstream; both are `none`. -/
def choiceContent : PyVal → Option String
  | PyVal.vobj fields =>
      (match lookupJ fields "message" with
       | some (PyVal.vobj ms) =>
           (match lookupJ ms "content" with
            | some (PyVal.vstr s) => some s
            | some _ => none
            | none => some "")
       | some _ => none
       | none => some "")
  | _ => none

/-- The response-parsing portion of `get_ocr_results` (the `ocr_text`
fallback chain).  `none` models a raised `TypeError` on an ill-typed
response; every well-formed response yields `some` content, the final
fallback being the empty string with a warning log. -/
def extractOcrContent (result : PyVal) : Option String :=
  match jGet result "pages" with
  | some (PyVal.varr pages) =>
      (markdownParts pages).map (String.intercalate "\n\n")
  | _ =>
    match jGet result "content" with
    | some (PyVal.vstr s) => some s
    | some _ => none
    | none =>
      match jGet result "text" with
      | some (PyVal.vstr s) => some s
      | some _ => none
      | none =>
        match jGet result "choices" with
        | some (PyVal.varr (c :: _)) => choiceContent c
        | some (PyVal.varr []) => some ""
        | some _ => none
        | none => some ""

/-! ## Deduplication: specification-side definitions

These definitions transcribe the claim wording ("group matches by
`(polygon, pageNumber)`; within a group retain exactly one match — the one
with maximal score, ties in favor of the first-seen entry") so that
`deduplicate_polygons` can be compared against them. -/

/-- Keep the better-scoring of two matches, the earlier one on ties. -/
def pick (best x : Match) : Match :=
  if pyScore x > pyScore best then x else best

/-- The first match in `m :: rest` achieving the maximal `pyScore`. -/
def bestOf (m : Match) (rest : List Match) : Match :=
  rest.foldl pick m

/-- The group of candidates sharing a `(points, pageNumber)` key. -/
def groupOf (key : List ℚ × Int) (ms : List Match) : List Match :=
  ms.filter (fun m => matchKey m = key)

/-- Retain exactly one match of a group: the first-seen maximal one. -/
def keepBest : List Match → Option Match
  | [] => none
  | m :: rest => some (bestOf m rest)

/-- The distinct grouping keys of a candidate list, in first-seen order
(`done` collects the keys already emitted). -/
def groupKeysAux (done : List (List ℚ × Int)) : List Match → List (List ℚ × Int)
  | [] => []
  | m :: ms =>
      if matchKey m ∈ done then groupKeysAux done ms
      else matchKey m :: groupKeysAux (done ++ [matchKey m]) ms

/-- The distinct grouping keys of a candidate list, in first-seen order. -/
def groupKeys (ms : List Match) : List (List ℚ × Int) :=
  groupKeysAux [] ms

/-- The claim-stated deduplication: one representative (the first-seen
maximal-score match) per `(polygon, pageNumber)` group, groups in
first-seen order. -/
def dedupSpec (ms : List Match) : List Match :=
  (groupKeys ms).filterMap (fun k => keepBest (groupOf k ms))

/-- The score the claim ascribes to a match: the higher of its confidence
and its similarity, a missing value counting as `0`. -/
def claimScore (m : Match) : ℚ :=
  max (m.confidence.getD 0) (m.similarity.getD 0)

/-- Intermediate spec for the fold: the representatives of the groups whose
keys are not yet in `done`. -/
def newSpec (done : List (List ℚ × Int)) : List Match → List Match
  | [] => []
  | m :: ms =>
      if matchKey m ∈ done then newSpec done ms
      else bestOf m (groupOf (matchKey m) ms) :: newSpec (done ++ [matchKey m]) ms

/-! ## Further specification-side definitions and sample data -/

/-- Is the value a Python `str`? (`isinstance(field_value, str)`). -/
def isStr : PyVal → Bool
  | PyVal.vstr _ => true
  | _ => false

/-- Modelled from the words of claim C10: every value polygon of every
key-value pair whose normalized key similarity meets the threshold, accepted
on key similarity alone, with a recorded value similarity of `0`. -/
def kvAllByKey (field_name : String) (key_value_pairs : List KVPair)
    (threshold : ℚ) : List Match :=
  key_value_pairs.flatMap (fun kv_pair =>
    let key_similarity :=
      fuzzScore (normalize_key field_name) (normalize_key kv_pair.keyContent)
    if key_similarity ≥ threshold then
      kv_pair.valueBoundingPolygons.map (fun polygon =>
        { points := polygon.points
          pageNumber := polygon.pageNumber
          confidence := kv_pair.confidence
          source := "doc_intelligence_kv"
          matchedContent := kv_pair.valueContent
          keySimilarity := some key_similarity
          valueSimilarity := some 0
          similarity := none })
    else [])

/-- An `EnrichedLeaf` record in the sense of the claims: a dict carrying the
original value under `value` and an always-present (possibly empty) list
under `boundingPolygons`. -/
def LeafRec (v e : PyVal) : Prop :=
  ∃ fields, e = PyVal.vobj fields ∧ lookupJ fields "value" = some v ∧
    ∃ bps, lookupJ fields "boundingPolygons" = some (PyVal.varr bps)

mutual
/-- The shape relation the enricher establishes (C7, amended): dicts mirror
field-by-field with identical keys, lists mirror index-by-index, scalars
become leaf records.  A list element that is itself a dict is recursed;
any other element — scalar or nested list alike — becomes a leaf record
wrapping the whole element. -/
inductive Mirrors : PyVal → PyVal → Prop where
  | scalar (v e : PyVal) : isScalar v = true → LeafRec v e → Mirrors v e
  | arr (items rItems : List PyVal) :
      ItemsMirror items rItems → Mirrors (PyVal.varr items) (PyVal.varr rItems)
  | obj (fields rFields : List (String × PyVal)) :
      FieldsMirror fields rFields → Mirrors (PyVal.vobj fields) (PyVal.vobj rFields)

/-- Index-by-index mirroring of list elements. -/
inductive ItemsMirror : List PyVal → List PyVal → Prop where
  | nil : ItemsMirror [] []
  | consObj (fs rfs : List (String × PyVal)) (rest rrest : List PyVal) :
      FieldsMirror fs rfs → ItemsMirror rest rrest →
      ItemsMirror (PyVal.vobj fs :: rest) (PyVal.vobj rfs :: rrest)
  | consLeaf (item e : PyVal) (rest rrest : List PyVal) :
      isObj item = false → LeafRec item e → ItemsMirror rest rrest →
      ItemsMirror (item :: rest) (e :: rrest)

/-- Key-preserving field-by-field mirroring of dict entries. -/
inductive FieldsMirror : List (String × PyVal) → List (String × PyVal) → Prop where
  | nil : FieldsMirror [] []
  | cons (k : String) (v e : PyVal) (rest rrest : List (String × PyVal)) :
      Mirrors v e → FieldsMirror rest rrest →
      FieldsMirror ((k, v) :: rest) ((k, e) :: rrest)
end

/-- An empty spatial index. -/
def pdEmpty : PolygonData :=
  { keyValuePairs := [], words := [], lines := [], paragraphs := 0 }

/-- A sample index holding the single word `"x"`. -/
def pdWord : PolygonData :=
  { keyValuePairs := []
    words := [{ content := "x", pageNumber := 1, points := [1, 2], confidence := none }]
    lines := []
    paragraphs := 0 }

/-- A sample index holding one key-value pair (`a` ↦ `b`). -/
def pdKV : PolygonData :=
  { keyValuePairs :=
      [{ keyContent := "a", valueContent := "b"
         valueBoundingPolygons := [{ points := [3, 4], pageNumber := 1 }]
         confidence := some (mkRat 9 10) }]
    words := [], lines := [], paragraphs := 0 }

/-- A sample index with one key-value pair (`a` ↦ `b`) whose reported
confidence is `0.0` — present but Python-falsy. -/
def pdKVzero : PolygonData :=
  { keyValuePairs :=
      [{ keyContent := "a", valueContent := "b"
         valueBoundingPolygons := [{ points := [3, 4], pageNumber := 1 }]
         confidence := some 0 }]
    words := [], lines := [], paragraphs := 0 }

/-- A fuzzy word match carrying both a (low, 0–1 scale) OCR confidence and
a high similarity — its Python `or`-chain score is the confidence `1/2`. -/
def cexA : Match :=
  { points := [1, 2], pageNumber := 1, confidence := some (mkRat 1 2)
    source := "fuzzy_match_word", matchedContent := "x"
    keySimilarity := none, valueSimilarity := none, similarity := some 95 }

/-- A key-value match at the same location with confidence `80`. -/
def cexB : Match :=
  { points := [1, 2], pageNumber := 1, confidence := some 80
    source := "doc_intelligence_kv", matchedContent := "x"
    keySimilarity := some 100, valueSimilarity := some 100, similarity := none }

/-- A sample key-value match used as deduplication witness input. -/
def wm1 : Match :=
  { points := [1, 2], pageNumber := 1, confidence := some 80
    source := "doc_intelligence_kv", matchedContent := "w"
    keySimilarity := some 100, valueSimilarity := some 100, similarity := none }

/-- A sample OCR line whose content is `"a b"`. -/
def cexLine : OcrLine :=
  { content := "a b", pageNumber := 1, points := [5, 6] }

/-! ### Lemmas about the seen-dict fold -/

theorem alookup_none_iff (k : List ℚ × Int) :
    ∀ seen : List ((List ℚ × Int) × Match),
      alookup seen k = none ↔ k ∉ seen.map Prod.fst
  | [] => by simp [alookup]
  | (k', v) :: rest => by
      by_cases h : k' = k
      · subst h; simp [alookup]
      · simp [alookup, h, Ne.symm h, alookup_none_iff k rest]

theorem alookup_some_mem {seen : List ((List ℚ × Int) × Match)}
    {k : List ℚ × Int} {v : Match} (h : alookup seen k = some v) :
    k ∈ seen.map Prod.fst := by
  by_contra hk
  rw [← alookup_none_iff k seen] at hk
  rw [hk] at h
  exact Option.noConfusion h

theorem updateAssoc_map_fst (k : List ℚ × Int) (m : Match) :
    ∀ seen : List ((List ℚ × Int) × Match),
      (updateAssoc seen k m).map Prod.fst = seen.map Prod.fst
  | [] => rfl
  | (k', v) :: rest => by
      by_cases h : k' = k
      · subst h; simp [updateAssoc]
      · simp [updateAssoc, h, updateAssoc_map_fst k m rest]

theorem updateAssoc_id {k : List ℚ × Int} {v : Match} :
    ∀ {seen : List ((List ℚ × Int) × Match)}, alookup seen k = some v →
      updateAssoc seen k v = seen
  | [], h => by simp [alookup] at h
  | (k', v') :: rest, h => by
      by_cases hk : k' = k
      · subst hk
        simp [alookup] at h
        simp [updateAssoc, h]
      · simp [alookup, hk] at h
        simp [updateAssoc, hk, updateAssoc_id h]

theorem dedupStep_found {seen : List ((List ℚ × Int) × Match)} {m ex : Match}
    (h : alookup seen (matchKey m) = some ex) :
    dedupStep seen m = updateAssoc seen (matchKey m) (pick ex m) := by
  unfold dedupStep pick
  rw [h]
  by_cases hs : pyScore m > pyScore ex
  · simp [hs]
  · simp [hs, updateAssoc_id h]

theorem dedupStep_new {seen : List ((List ℚ × Int) × Match)} {m : Match}
    (h : alookup seen (matchKey m) = none) :
    dedupStep seen m = seen ++ [(matchKey m, m)] := by
  unfold dedupStep
  rw [h]

theorem groupOf_nil (k : List ℚ × Int) : groupOf k [] = [] := rfl

theorem groupOf_cons_self {m : Match} {k : List ℚ × Int} (h : matchKey m = k)
    (ms : List Match) : groupOf k (m :: ms) = m :: groupOf k ms := by
  simp [groupOf, List.filter_cons, h]

theorem groupOf_cons_ne {m : Match} {k : List ℚ × Int} (h : matchKey m ≠ k)
    (ms : List Match) : groupOf k (m :: ms) = groupOf k ms := by
  simp [groupOf, List.filter_cons, h]

theorem bestOf_nil (m : Match) : bestOf m [] = m := rfl

theorem bestOf_cons (m x : Match) (l : List Match) :
    bestOf m (x :: l) = bestOf (pick m x) l := rfl

theorem pick_le_left (m x : Match) : pyScore m ≤ pyScore (pick m x) := by
  unfold pick
  split
  · exact le_of_lt (by assumption)
  · exact le_refl _

theorem pick_le_right (m x : Match) : pyScore x ≤ pyScore (pick m x) := by
  unfold pick
  split
  · exact le_refl _
  · exact le_of_not_lt (by assumption)

theorem bestOf_mem : ∀ (l : List Match) (m : Match), bestOf m l ∈ m :: l
  | [], m => by simp [bestOf]
  | x :: l, m => by
      rw [bestOf_cons]
      have h := bestOf_mem l (pick m x)
      rcases List.mem_cons.mp h with h | h
      · rw [h]
        unfold pick
        split <;> simp
      · simp [List.mem_cons, h]

theorem bestOf_le : ∀ (l : List Match) (m x : Match), x ∈ m :: l →
    pyScore x ≤ pyScore (bestOf m l)
  | [], m, x, hx => by
      rcases List.mem_cons.mp hx with h | h
      · rw [h, bestOf_nil]
      · simp at h
  | y :: l, m, x, hx => by
      rw [bestOf_cons]
      have hm : pyScore (pick m y) ≤ pyScore (bestOf (pick m y) l) :=
        bestOf_le l (pick m y) (pick m y) (List.mem_cons_self _ _)
      rcases List.mem_cons.mp hx with h | h
      · rw [h]; exact le_trans (pick_le_left m y) hm
      · rcases List.mem_cons.mp h with h | h
        · rw [h]; exact le_trans (pick_le_right m y) hm
        · exact bestOf_le l (pick m y) x (List.mem_cons_of_mem _ h)

theorem updateAssoc_cons_self (k : List ℚ × Int) (v m : Match)
    (rest : List ((List ℚ × Int) × Match)) :
    updateAssoc ((k, v) :: rest) k m = (k, m) :: rest := by
  simp [updateAssoc]

theorem updateAssoc_cons_ne {k' k : List ℚ × Int} (h : k' ≠ k) (v m : Match)
    (rest : List ((List ℚ × Int) × Match)) :
    updateAssoc ((k', v) :: rest) k m = (k', v) :: updateAssoc rest k m := by
  simp [updateAssoc, h]

theorem mapBest_update (ms : List Match) (m ex : Match) :
    ∀ seen : List ((List ℚ × Int) × Match), (seen.map Prod.fst).Nodup →
      alookup seen (matchKey m) = some ex →
      (updateAssoc seen (matchKey m) (pick ex m)).map
          (fun kv => bestOf kv.2 (groupOf kv.1 ms))
        = seen.map (fun kv => bestOf kv.2 (groupOf kv.1 (m :: ms)))
  | [], _, h => by simp [alookup] at h
  | (k, v) :: rest, hnd, h => by
      by_cases hk : k = matchKey m
      · subst hk
        have hv : v = ex := by simpa [alookup] using h
        subst hv
        have hnd2 : (matchKey m :: rest.map Prod.fst).Nodup := by simpa using hnd
        have hnotmem := (List.nodup_cons.mp hnd2).1
        rw [updateAssoc_cons_self, List.map_cons, List.map_cons,
          groupOf_cons_self rfl, bestOf_cons]
        congr 1
        apply List.map_congr_left
        intro kv hkv
        have hne : matchKey m ≠ kv.1 := by
          intro heq
          exact hnotmem (heq ▸ List.mem_map_of_mem Prod.fst hkv)
        rw [groupOf_cons_ne hne]
      · have h' : alookup rest (matchKey m) = some ex := by
          simpa [alookup, hk] using h
        have hnd2 : (k :: rest.map Prod.fst).Nodup := by simpa using hnd
        rw [updateAssoc_cons_ne hk, List.map_cons, List.map_cons,
          groupOf_cons_ne (fun hh => hk hh.symm),
          mapBest_update ms m ex rest (List.nodup_cons.mp hnd2).2 h']

theorem foldl_dedupStep_spec :
    ∀ (ms : List Match) (seen : List ((List ℚ × Int) × Match)),
      (seen.map Prod.fst).Nodup →
      ((ms.foldl dedupStep seen).map Prod.snd)
        = seen.map (fun kv => bestOf kv.2 (groupOf kv.1 ms))
          ++ newSpec (seen.map Prod.fst) ms
  | [], seen, _ => by
      simp only [List.foldl_nil, newSpec, List.append_nil]
      apply List.map_congr_left
      intro kv _
      rw [groupOf_nil, bestOf_nil]
  | m :: rest, seen, hnd => by
      rw [List.foldl_cons]
      cases h : alookup seen (matchKey m) with
      | some ex =>
          rw [dedupStep_found h]
          have hnd' : ((updateAssoc seen (matchKey m) (pick ex m)).map Prod.fst).Nodup := by
            rw [updateAssoc_map_fst]; exact hnd
          rw [foldl_dedupStep_spec rest _ hnd', updateAssoc_map_fst,
            mapBest_update rest m ex seen hnd h]
          have hmem : matchKey m ∈ seen.map Prod.fst := alookup_some_mem h
          simp only [newSpec, if_pos hmem]
      | none =>
          rw [dedupStep_new h]
          have hkey : matchKey m ∉ seen.map Prod.fst := (alookup_none_iff _ _).mp h
          have hnd' : (((seen ++ [(matchKey m, m)]).map Prod.fst)).Nodup := by
            rw [List.map_append]
            simp only [List.map_cons, List.map_nil]
            rw [List.nodup_append]
            exact ⟨hnd, List.nodup_singleton _, by simpa using hkey⟩
          rw [foldl_dedupStep_spec rest _ hnd']
          rw [List.map_append, List.map_append]
          simp only [List.map_cons, List.map_nil]
          rw [List.append_assoc]
          congr 1
          · apply List.map_congr_left
            intro kv hkv
            have hne : matchKey m ≠ kv.1 := by
              intro heq
              exact hkey (heq ▸ List.mem_map_of_mem Prod.fst hkv)
            rw [groupOf_cons_ne hne]
          · simp only [newSpec, if_neg hkey, List.singleton_append]

theorem groupKeysAux_not_done :
    ∀ (ms : List Match) (done : List (List ℚ × Int)) (k : List ℚ × Int),
      k ∈ groupKeysAux done ms → k ∉ done
  | [], done, k, h => by simp [groupKeysAux] at h
  | m :: ms, done, k, h => by
      by_cases hm : matchKey m ∈ done
      · simp only [groupKeysAux, if_pos hm] at h
        exact groupKeysAux_not_done ms done k h
      · simp only [groupKeysAux, if_neg hm] at h
        rcases List.mem_cons.mp h with h | h
        · subst h; exact hm
        · intro hd
          exact groupKeysAux_not_done ms (done ++ [matchKey m]) k h
            (List.mem_append_left _ hd)

theorem newSpec_eq_filterMap :
    ∀ (ms : List Match) (done : List (List ℚ × Int)),
      newSpec done ms
        = (groupKeysAux done ms).filterMap (fun k => keepBest (groupOf k ms))
  | [], done => by simp [newSpec, groupKeysAux]
  | m :: ms, done => by
      by_cases hm : matchKey m ∈ done
      · simp only [newSpec, groupKeysAux, if_pos hm]
        rw [newSpec_eq_filterMap ms done]
        apply List.filterMap_congr
        intro k hk
        have hne : matchKey m ≠ k := by
          intro heq
          exact groupKeysAux_not_done ms done k hk (heq ▸ hm)
        rw [groupOf_cons_ne hne]
      · simp only [newSpec, groupKeysAux, if_neg hm, List.filterMap_cons]
        rw [groupOf_cons_self rfl]
        simp only [keepBest]
        congr 1
        rw [newSpec_eq_filterMap ms (done ++ [matchKey m])]
        apply List.filterMap_congr
        intro k hk
        have hne : matchKey m ≠ k := by
          intro heq
          exact groupKeysAux_not_done ms (done ++ [matchKey m]) k hk
            (heq ▸ List.mem_append_right _ (List.mem_singleton_self _))
        rw [groupOf_cons_ne hne]
        exact rfl

/-- The fold `deduplicate_polygons` satisfies the (score-corrected) grouping
specification. -/
theorem deduplicate_eq_dedupSpec (ms : List Match) :
    deduplicate_polygons ms = dedupSpec ms := by
  unfold deduplicate_polygons dedupSpec groupKeys
  rw [foldl_dedupStep_spec ms [] (by simp)]
  simp only [List.map_nil, List.nil_append]
  exact newSpec_eq_filterMap ms []

/-- Every deduplicated match is one of the candidates. -/
theorem deduplicate_subset {ms : List Match} {m : Match}
    (h : m ∈ deduplicate_polygons ms) : m ∈ ms := by
  rw [deduplicate_eq_dedupSpec] at h
  unfold dedupSpec at h
  rcases List.mem_filterMap.mp h with ⟨k, _, hk⟩
  cases hg : groupOf k ms with
  | nil => rw [hg] at hk; simp [keepBest] at hk
  | cons g gs =>
      rw [hg] at hk
      simp only [keepBest, Option.some.injEq] at hk
      have hmem : m ∈ g :: gs := hk ▸ bestOf_mem gs g
      rw [← hg] at hmem
      exact List.mem_of_mem_filter hmem

/-- Every match in a deduplicated group scores no higher (in the Python
`or`-chain score) than the retained representative. -/
theorem deduplicate_max {ms : List Match} {m' : Match}
    (h : m' ∈ deduplicate_polygons ms) :
    ∀ m ∈ ms, matchKey m = matchKey m' → pyScore m ≤ pyScore m' := by
  intro m hm hkeq
  rw [deduplicate_eq_dedupSpec] at h
  unfold dedupSpec at h
  rcases List.mem_filterMap.mp h with ⟨k, _, hk⟩
  cases hg : groupOf k ms with
  | nil => rw [hg] at hk; simp [keepBest] at hk
  | cons g gs =>
      rw [hg] at hk
      simp only [keepBest, Option.some.injEq] at hk
      have hm'mem : m' ∈ g :: gs := hk ▸ bestOf_mem gs g
      have hm'key : matchKey m' = k := by
        have : m' ∈ groupOf k ms := hg ▸ hm'mem
        simpa [groupOf] using List.of_mem_filter this
      have hmgrp : m ∈ groupOf k ms := by
        unfold groupOf
        apply List.mem_filter_of_mem hm
        simp [hkeq, hm'key]
      rw [hg] at hmgrp
      exact hk ▸ bestOf_le gs g m hmgrp

/-! ## Claim theorems -/

/-- C1 (amended): for every list of candidate matches, deduplication groups
matches by `(polygon points, pageNumber)` and retains exactly one match per
group — the first-seen one with maximal score — where the score is the
Python `or`-chain `confidence or similarity or 0` (the confidence when it is
present and nonzero, otherwise the similarity when present and nonzero,
otherwise `0`), not the maximum of confidence and similarity; and the
retained match's score is maximal in its group. -/
theorem deduplicate_polygons_grouping (ms : List Match) :
    deduplicate_polygons ms = dedupSpec ms ∧
      ∀ mKept ∈ deduplicate_polygons ms, ∀ m ∈ ms,
        matchKey m = matchKey mKept → pyScore m ≤ pyScore mKept :=
  ⟨deduplicate_eq_dedupSpec ms,
   fun _ hkept m hm hk => deduplicate_max hkept m hm hk⟩

/-- Witness for C1: the grouping theorem applied to the one-element list
`[wm1]`, with its membership hypotheses discharged concretely. -/
theorem deduplicate_polygons_grouping_witness :
    deduplicate_polygons [wm1] = dedupSpec [wm1] ∧ pyScore wm1 ≤ pyScore wm1 :=
  ⟨(deduplicate_polygons_grouping [wm1]).1,
   (deduplicate_polygons_grouping [wm1]).2 wm1
     (by rw [show deduplicate_polygons [wm1] = [wm1] from rfl]
         exact List.mem_singleton_self wm1)
     wm1 (List.mem_singleton_self wm1) rfl⟩

/-- Counterexample for C1 as stated: `cexA` and `cexB` share the grouping
key; under the claim-stated score (`max confidence similarity`, missing as 0)
`cexA` scores 95 and `cexB` scores 80, so the claim requires `cexA` to be
retained — but the `or`-chain of the code scores them 1/2 and 80 and keeps
`cexB`. -/
theorem deduplicate_polygons_claim_cex :
    deduplicate_polygons [cexA, cexB] = [cexB] ∧
      matchKey cexA = matchKey cexB ∧ claimScore cexB < claimScore cexA :=
  ⟨rfl, rfl, by decide⟩

/-- C8: a `None` field value, or a string field value that strips to empty,
short-circuits `correlate_field_with_polygons` to the empty match list. -/
theorem correlate_empty_value (field_name : String) (pd : PolygonData)
    (t : ℚ) (v : PyVal)
    (h : v = PyVal.vnull ∨ ∃ s, v = PyVal.vstr s ∧ pyStrip s = "") :
    correlate_field_with_polygons field_name v pd t = [] := by
  rcases h with h | ⟨s, h, hs⟩
  · subst h; rfl
  · subst h
    simp [correlate_field_with_polygons, isEmptyFieldValue, hs]

/-- Witness for C8: the short-circuit theorem applied to `None` and to the
all-whitespace string value, over a nonempty index. -/
theorem correlate_empty_value_witness :
    correlate_field_with_polygons "total" PyVal.vnull pdKV 90 = [] ∧
      correlate_field_with_polygons "total" (PyVal.vstr "  ") pdKV 90 = [] :=
  ⟨correlate_empty_value "total" pdKV 90 PyVal.vnull (Or.inl rfl),
   correlate_empty_value "total" pdKV 90 (PyVal.vstr "  ")
     (Or.inr ⟨"  ", rfl, rfl⟩)⟩

/-- Every match produced by Pass 1 carries the `doc_intelligence_kv` source tag. -/
theorem find_kv_source {field_name : String} {v : PyVal} {kvs : List KVPair}
    {t : ℚ} {m : Match} (h : m ∈ find_key_value_polygon field_name v kvs t) :
    m.source = "doc_intelligence_kv" := by
  unfold find_key_value_polygon at h
  simp only [List.mem_flatMap] at h
  obtain ⟨kv, _, hm⟩ := h
  repeat split at hm
  all_goals (try simp at hm)
  all_goals
    first
      | (obtain ⟨p, _, hp⟩ := hm
         subst hp
         rfl)
      | (obtain ⟨_, p, _, hp⟩ := hm
         subst hp
         rfl)

/-- C5: when the field value does not short-circuit, Pass 2 runs exactly
when Pass 1 found nothing: with no key-value match the result is the
deduplicated fuzzy matches of the stringified value, and with at least one
key-value match the result is the deduplicated key-value matches only, all
tagged `doc_intelligence_kv`. -/
theorem correlate_two_pass (field_name : String) (v : PyVal)
    (pd : PolygonData) (t : ℚ) (hne : isEmptyFieldValue v = false) :
    (find_key_value_polygon field_name v pd.keyValuePairs t = [] →
        correlate_field_with_polygons field_name v pd t
          = deduplicate_polygons
              (find_fuzzy_match_polygons (pythonStr v) pd.words pd.lines t)) ∧
    (find_key_value_polygon field_name v pd.keyValuePairs t ≠ [] →
        correlate_field_with_polygons field_name v pd t
          = deduplicate_polygons
              (find_key_value_polygon field_name v pd.keyValuePairs t) ∧
        ∀ m ∈ correlate_field_with_polygons field_name v pd t,
          m.source = "doc_intelligence_kv") := by
  constructor
  · intro hkv
    simp [correlate_field_with_polygons, hne, hkv]
  · intro hkv
    have hkvE : (find_key_value_polygon field_name v pd.keyValuePairs t).isEmpty
        = false := by
      cases hfind : find_key_value_polygon field_name v pd.keyValuePairs t with
      | nil => exact absurd hfind hkv
      | cons a l => rfl
    have hcor : correlate_field_with_polygons field_name v pd t
        = deduplicate_polygons
            (find_key_value_polygon field_name v pd.keyValuePairs t) := by
      simp [correlate_field_with_polygons, hne, hkvE]
    refine ⟨hcor, ?_⟩
    intro m hm
    rw [hcor] at hm
    exact find_kv_source (deduplicate_subset hm)

/-- Witness for C5: with an index holding no key-value pairs, Pass 1 is
empty and the result is exactly the deduplicated Pass 2 output. -/
theorem correlate_two_pass_witness :
    isEmptyFieldValue (PyVal.vstr "x") = false ∧
      correlate_field_with_polygons "a" (PyVal.vstr "x") pdWord 90
        = deduplicate_polygons
            (find_fuzzy_match_polygons (pythonStr (PyVal.vstr "x"))
              pdWord.words pdWord.lines 90) :=
  ⟨rfl, (correlate_two_pass "a" (PyVal.vstr "x") pdWord 90 rfl).1 rfl⟩

/-- C10: a falsy field value that is neither `None` nor a string (such as
`0` or `False`) does not short-circuit; Pass 1 stringifies it to the empty
string, so every key-value pair whose key similarity meets the threshold is
accepted on key similarity alone (recorded value similarity `0`) and
contributes all of its value polygons as `doc_intelligence_kv` matches. -/
theorem correlate_falsy_nonstring (field_name : String) (pd : PolygonData)
    (t : ℚ) (v : PyVal) (hfalsy : pyTruthy v = false)
    (hnull : v ≠ PyVal.vnull) (hstr : isStr v = false) :
    find_key_value_polygon field_name v pd.keyValuePairs t
        = kvAllByKey field_name pd.keyValuePairs t ∧
    correlate_field_with_polygons field_name v pd t
        = deduplicate_polygons
            (kvAllByKey field_name pd.keyValuePairs t ++
              (if (kvAllByKey field_name pd.keyValuePairs t).isEmpty then
                find_fuzzy_match_polygons (pythonStr v) pd.words pd.lines t
              else [])) := by
  have hkv : find_key_value_polygon field_name v pd.keyValuePairs t
      = kvAllByKey field_name pd.keyValuePairs t := by
    unfold find_key_value_polygon kvAllByKey
    simp [hfalsy]
  have hemp : isEmptyFieldValue v = false := by
    cases v <;> simp_all [isEmptyFieldValue, isStr]
  refine ⟨hkv, ?_⟩
  unfold correlate_field_with_polygons
  rw [hemp, hkv]
  simp

/-- Witness for C10: the boolean `False` against an index with a matching
key: the polygons of the pair are returned on key similarity alone. -/
theorem correlate_falsy_nonstring_witness :
    pyTruthy (PyVal.vbool false) = false ∧
      find_key_value_polygon "a" (PyVal.vbool false) pdKV.keyValuePairs 90
        = kvAllByKey "a" pdKV.keyValuePairs 90 ∧
      (kvAllByKey "a" pdKV.keyValuePairs 90).length = 1 :=
  ⟨rfl,
   (correlate_falsy_nonstring "a" pdKV 90 (PyVal.vbool false) rfl
      (fun hcontra => PyVal.noConfusion hcontra) rfl).1,
   by rfl⟩

/-- Every match produced by the Pass 2 word scan carries a word source tag. -/
theorem wordScanStep_source {sv : String} {t : ℚ} {w : OcrWord} {m : Match}
    (h : m ∈ wordScanStep sv t w) :
    m.source = "fuzzy_match_word" ∨ m.source = "fuzzy_match_word_partial" := by
  unfold wordScanStep at h
  repeat split at h
  all_goals (try simp at h)
  · obtain ⟨-, hm⟩ := h
    subst hm
    left; rfl
  · obtain ⟨_, -, -, hm⟩ := h
    subst hm
    right; rfl

/-- Filtering the Pass 2 line scan by source tag: a `line-partial` match is
emitted exactly when the full-string similarity is below threshold, the
search value is contained in the line, and the partial score meets the
threshold; a `line-fuzzy` match exactly when the full-string similarity
meets the threshold. -/
theorem lineScan_filter (sv : String) (t : ℚ) : ∀ lines : List OcrLine,
    ((lines.flatMap (lineScanStep sv t)).filter
        (fun m => m.source = "fuzzy_match_line_partial")
      = lines.filterMap (fun line =>
          if fuzzScore sv (pyLower line.content) ≥ t then none
          else if pyContains sv (pyLower line.content)
              ∧ fuzzPartialScore sv (pyLower line.content) ≥ t then
            some (linePartialMatch line (fuzzPartialScore sv (pyLower line.content)))
          else none))
    ∧ ((lines.flatMap (lineScanStep sv t)).filter
        (fun m => m.source = "fuzzy_match_line")
      = lines.filterMap (fun line =>
          if fuzzScore sv (pyLower line.content) ≥ t then
            some (lineFuzzyMatch line (fuzzScore sv (pyLower line.content)))
          else none))
  | [] => by simp
  | l :: rest => by
      have ih := lineScan_filter sv t rest
      constructor
      · simp only [List.flatMap_cons, List.filter_append, List.filterMap_cons]
        rw [ih.1]
        unfold lineScanStep
        by_cases h1 : fuzzScore sv (pyLower l.content) ≥ t
        · simp [h1, lineFuzzyMatch]
        · by_cases h2 : pyContains sv (pyLower l.content)
          · by_cases h3 : fuzzPartialScore sv (pyLower l.content) ≥ t
            · simp [h1, h2, h3, linePartialMatch]
            · simp [h1, h2, h3]
          · simp [h1, h2]
      · simp only [List.flatMap_cons, List.filter_append, List.filterMap_cons]
        rw [ih.2]
        unfold lineScanStep
        by_cases h1 : fuzzScore sv (pyLower l.content) ≥ t
        · simp [h1, lineFuzzyMatch]
        · by_cases h2 : pyContains sv (pyLower l.content)
          · by_cases h3 : fuzzPartialScore sv (pyLower l.content) ≥ t
            · simp [h1, h2, h3, linePartialMatch]
            · simp [h1, h2, h3]
          · simp [h1, h2]

/-- C2 (amended): for a multi-word search value the two line checks are not
independent — the substring-containment check runs only when the
full-string similarity is below the threshold, so each line emits at most
one of `line-fuzzy`/`line-partial`: the `line-partial` matches are exactly
those lines with below-threshold full similarity that contain the search
value with an at-threshold partial score, and the `line-fuzzy` matches are
exactly those lines with at-threshold full similarity. -/
theorem find_fuzzy_line_scan_exclusive (value : String) (words : List OcrWord)
    (lines : List OcrLine) (t : ℚ)
    (hmulti : 1 < (pySplit (pyLower (pyStrip value))).length) :
    ((find_fuzzy_match_polygons value words lines t).filter
        (fun m => m.source = "fuzzy_match_line_partial")
      = lines.filterMap (fun line =>
          if fuzzScore (pyLower (pyStrip value)) (pyLower line.content) ≥ t then
            none
          else if pyContains (pyLower (pyStrip value)) (pyLower line.content)
              ∧ fuzzPartialScore (pyLower (pyStrip value)) (pyLower line.content)
                  ≥ t then
            some (linePartialMatch line
              (fuzzPartialScore (pyLower (pyStrip value)) (pyLower line.content)))
          else none))
    ∧ ((find_fuzzy_match_polygons value words lines t).filter
        (fun m => m.source = "fuzzy_match_line")
      = lines.filterMap (fun line =>
          if fuzzScore (pyLower (pyStrip value)) (pyLower line.content) ≥ t then
            some (lineFuzzyMatch line
              (fuzzScore (pyLower (pyStrip value)) (pyLower line.content)))
          else none)) := by
  have hsv : ¬(pyLower (pyStrip value) = "") := by
    intro he
    rw [he] at hmulti
    simp [pySplit, pySplitAux] at hmulti
  have hw : ∀ m ∈ words.flatMap (wordScanStep (pyLower (pyStrip value)) t),
      m.source = "fuzzy_match_word" ∨ m.source = "fuzzy_match_word_partial" := by
    intro m hm
    obtain ⟨w, _, hmw⟩ := List.mem_flatMap.mp hm
    exact wordScanStep_source hmw
  unfold find_fuzzy_match_polygons
  rw [if_neg hsv, if_pos hmulti]
  constructor
  · rw [List.filter_append, (lineScan_filter (pyLower (pyStrip value)) t lines).1]
    have hnil : (words.flatMap (wordScanStep (pyLower (pyStrip value)) t)).filter
        (fun m => m.source = "fuzzy_match_line_partial") = [] := by
      rw [List.filter_eq_nil_iff]
      intro a ha
      rcases hw a ha with h | h <;> simp [h]
    rw [hnil, List.append_nil]
  · rw [List.filter_append, (lineScan_filter (pyLower (pyStrip value)) t lines).2]
    have hnil : (words.flatMap (wordScanStep (pyLower (pyStrip value)) t)).filter
        (fun m => m.source = "fuzzy_match_line") = [] := by
      rw [List.filter_eq_nil_iff]
      intro a ha
      rcases hw a ha with h | h <;> simp [h]
    rw [hnil, List.append_nil]

/-- Witness for C2: the exclusivity theorem applied to the search value
`"a b"` over a one-line index. -/
theorem find_fuzzy_line_scan_exclusive_witness :
    1 < (pySplit (pyLower (pyStrip "a b"))).length ∧
      ((find_fuzzy_match_polygons "a b" [] [cexLine] 90).filter
          (fun m => m.source = "fuzzy_match_line")
        = [cexLine].filterMap (fun line =>
            if fuzzScore (pyLower (pyStrip "a b")) (pyLower line.content) ≥ 90 then
              some (lineFuzzyMatch line
                (fuzzScore (pyLower (pyStrip "a b")) (pyLower line.content)))
            else none)) :=
  ⟨by decide, (find_fuzzy_line_scan_exclusive "a b" [] [cexLine] 90 (by decide)).2⟩

set_option maxRecDepth 8000 in
/-- Counterexample for C2 as stated: for search value `"a b"` against the
line `"a b"` the full-similarity condition holds (score 100 ≥ 90) and,
independently, the substring-containment condition holds with partial score
100 ≥ 90 — so the claim requires both a `line-fuzzy` and a `line-partial`
match — yet the `elif` of the code emits only the single `line-fuzzy` match. -/
theorem find_fuzzy_independent_cex :
    find_fuzzy_match_polygons "a b" [] [cexLine] 90
        = [lineFuzzyMatch cexLine 100]
    ∧ fuzzScore "a b" (pyLower cexLine.content) ≥ 90
    ∧ pyContains "a b" (pyLower cexLine.content) = true
    ∧ fuzzPartialScore "a b" (pyLower cexLine.content) ≥ 90 :=
  ⟨by rfl, by decide, by rfl, by decide⟩

/-- C3 (amended): top-level fields with an excluded key are copied through
to the enriched tree verbatim (for every index and threshold, so the
matcher never influences them); however the counting walks do run over the
copied values — a scalar excluded value adds exactly one to the report's
total leaf count and nothing to its matched-leaf count. -/
theorem enrich_excluded_passthrough (pd : PolygonData) (t : ℚ)
    (extracted : List (String × PyVal)) (k : String) (v : PyVal)
    (hk : k ∈ excludedKeys) :
    ((k, v) ∈ extracted → (k, v) ∈ enrichFields pd t extracted) ∧
    (isScalar v = true →
      count_fields (PyVal.vobj [(k, v)]) = 1 ∧
      count_fields_with_polygons (PyVal.vobj [(k, v)]) = 0) := by
  have hus : pyStartsWith k "_" = false := by
    fin_cases hk <;> rfl
  constructor
  · intro hmem
    unfold enrichFields
    have heq : (fun kv : String × PyVal =>
        if kv.1 ∈ excludedKeys then kv
        else (kv.1, processValue pd t kv.1 kv.2)) (k, v) = (k, v) := by
      simp [hk]
    exact heq ▸ List.mem_map_of_mem _ hmem
  · intro hsv
    cases v <;>
      simp_all [count_fields, cfFields, count_fields_with_polygons, cfpFields,
        isScalar, isObj, isArr, hus]

/-- Witness for C3: the `error` key with a scalar value passes through
verbatim and counts as one (unmatched) leaf. -/
theorem enrich_excluded_passthrough_witness :
    ("error" ∈ excludedKeys) ∧
      ("error", PyVal.vstr "x") ∈ enrichFields pdEmpty 90 [("error", PyVal.vstr "x")] ∧
      count_fields (PyVal.vobj [("error", PyVal.vstr "x")]) = 1 ∧
      count_fields_with_polygons (PyVal.vobj [("error", PyVal.vstr "x")]) = 0 :=
  ⟨by decide,
   (enrich_excluded_passthrough pdEmpty 90 [("error", PyVal.vstr "x")] "error"
      (PyVal.vstr "x") (by decide)).1 (List.mem_singleton_self _),
   ((enrich_excluded_passthrough pdEmpty 90 [("error", PyVal.vstr "x")] "error"
      (PyVal.vstr "x") (by decide)).2 rfl).1,
   ((enrich_excluded_passthrough pdEmpty 90 [("error", PyVal.vstr "x")] "error"
      (PyVal.vstr "x") (by decide)).2 rfl).2⟩

/-- Counterexample for C3 as stated: the claim says excluded fields are
"counted neither in the report's total leaf count nor in its matched-leaf
count", but enriching `{"error": "boom"}` over an empty index reports
`totalFields = 1`, not `0` — the copied scalar is counted by the generic
walk. -/
theorem enrich_excluded_counted_cex :
    (enrich_extraction_with_polygons [("error", PyVal.vstr "boom")]
        pdEmpty 90).2.totalFields = 1 ∧
      (enrich_extraction_with_polygons [("error", PyVal.vstr "boom")]
        pdEmpty 90).2.fieldsWithPolygons = 0 :=
  ⟨rfl, rfl⟩

/-- C4 (amended): a scalar leaf at a dict position whose match call returns
at least one match gets `source` = the source tag of the first match, and a
`confidence` entry exactly when the confidence of the first match is present and
nonzero (Python truthiness), equal to it; a scalar element of an array,
by contrast, is wrapped in a record with only `value` and
`boundingPolygons` — no `source`, even when matches were found. -/
theorem scalar_leaf_first_match (pd : PolygonData) (t : ℚ) (key : String)
    (v : PyVal) (m : Match) (rest : List Match) (hs : isScalar v = true)
    (hm : correlate_field_with_polygons key v pd t = m :: rest) :
    jGet (processValue pd t key v) "value" = some v ∧
    jGet (processValue pd t key v) "source" = some (PyVal.vstr m.source) ∧
    (∀ c : ℚ, m.confidence = some c → ¬c = 0 →
        jGet (processValue pd t key v) "confidence" = some (PyVal.vnum c)) ∧
    ((m.confidence = none ∨ m.confidence = some 0) →
        jGet (processValue pd t key v) "confidence" = none) ∧
    (∀ item : PyVal, isObj item = false →
        processValue pd t key (PyVal.varr [item])
            = PyVal.varr [arrayLeaf pd t key item] ∧
        jGet (arrayLeaf pd t key item) "source" = none ∧
        jGet (arrayLeaf pd t key item) "value" = some item) := by
  have hpv : processValue pd t key v = scalarLeaf pd t key v := by
    cases v <;> first | rfl | simp_all [isScalar, isObj, isArr]
  rw [hpv]
  unfold scalarLeaf
  rw [hm]
  dsimp only
  refine ⟨by simp [jGet, lookupJ], by simp [jGet, lookupJ], ?_, ?_, ?_⟩
  · intro c hc hcne
    rw [hc]
    simp [jGet, lookupJ, hcne]
  · intro hc
    rcases hc with hc | hc <;> rw [hc] <;> simp [jGet, lookupJ]
  · intro item hobj
    refine ⟨?_, by simp [arrayLeaf, jGet, lookupJ], by simp [arrayLeaf, jGet, lookupJ]⟩
    cases item <;> simp_all [isObj, processValue, processItems]

set_option maxRecDepth 4000 in
/-- Witness for C4: a scalar string leaf matched by a single fuzzy word
match receives `source = "fuzzy_match_word"`. -/
theorem scalar_leaf_first_match_witness :
    isScalar (PyVal.vstr "x") = true ∧
      jGet (processValue pdWord 90 "a" (PyVal.vstr "x")) "source"
        = some (PyVal.vstr "fuzzy_match_word") :=
  ⟨rfl,
   (scalar_leaf_first_match pdWord 90 "a" (PyVal.vstr "x")
      (wordFuzzyMatch ⟨"x", 1, [1, 2], none⟩ (fuzzScore "x" "x"))
      [] rfl (by rfl)).2.1⟩

set_option maxRecDepth 4000 in
/-- Counterexample for C4 as stated: the array element `"x"` has a match
(the match call returns one fuzzy word match), yet its enriched record
carries no `source` entry at all; and a first match whose confidence is
present but `0.0` yields no `confidence` entry either. -/
theorem array_leaf_no_source_cex :
    ((correlate_field_with_polygons "a" (PyVal.vstr "x") pdWord 90).length = 1 ∧
      processValue pdWord 90 "a" (PyVal.varr [PyVal.vstr "x"])
        = PyVal.varr [arrayLeaf pdWord 90 "a" (PyVal.vstr "x")] ∧
      jGet (arrayLeaf pdWord 90 "a" (PyVal.vstr "x")) "source" = none) ∧
    ((correlate_field_with_polygons "a" (PyVal.vstr "b") pdKVzero 90).length = 1 ∧
      ((correlate_field_with_polygons "a" (PyVal.vstr "b")
          pdKVzero 90).headD default).confidence = some 0 ∧
      jGet (processValue pdKVzero 90 "a" (PyVal.vstr "b")) "confidence" = none) :=
  ⟨⟨by decide, rfl, rfl⟩, ⟨by decide, by decide, by rfl⟩⟩

/-- C6: a 4-number box `(x, y, w, h)` normalizes to exactly the 8 values
`[x, y, x+w, y, x+w, y+h, x, y+h]`; an 8-number box is returned unchanged;
and any other length (including the empty list) passes through unmodified
without error. -/
theorem normalize_mistral_bbox_spec :
    (∀ x y w h : ℚ, normalize_mistral_bbox [x, y, w, h]
        = [x, y, x + w, y, x + w, y + h, x, y + h]) ∧
    (∀ b : List ℚ, b.length = 8 → normalize_mistral_bbox b = b) ∧
    (∀ b : List ℚ, b.length ≠ 4 → normalize_mistral_bbox b = b) := by
  refine ⟨fun x y w h => rfl, ?_, ?_⟩
  · intro b hb
    rcases b with _ | ⟨a1, _ | ⟨a2, _ | ⟨a3, _ | ⟨a4, _ | ⟨a5, rest⟩⟩⟩⟩⟩ <;>
      first | rfl | simp at hb
  · intro b hb
    rcases b with _ | ⟨a1, _ | ⟨a2, _ | ⟨a3, _ | ⟨a4, _ | ⟨a5, rest⟩⟩⟩⟩⟩ <;>
      first | rfl | simp at hb

/-- Witness for C6: the three cases at concrete inputs. -/
theorem normalize_mistral_bbox_spec_witness :
    normalize_mistral_bbox [1, 2, 3, 4] = [1, 2, 4, 2, 4, 6, 1, 6] ∧
      normalize_mistral_bbox [1, 2, 3, 4, 5, 6, 7, 8] = [1, 2, 3, 4, 5, 6, 7, 8] ∧
      normalize_mistral_bbox [10, 20, 30, 30, 10, 30] = [10, 20, 30, 30, 10, 30] :=
  ⟨by
    have h := normalize_mistral_bbox_spec.1 1 2 3 4
    rw [h]
    norm_num,
   normalize_mistral_bbox_spec.2.1 [1, 2, 3, 4, 5, 6, 7, 8] (by simp),
   normalize_mistral_bbox_spec.2.2 [10, 20, 30, 30, 10, 30] (by simp)⟩

/-- The record built for a scalar at a dict position is a leaf record:
it carries the original value and an always-present `boundingPolygons` list. -/
theorem leafRec_scalarLeaf (pd : PolygonData) (t : ℚ) (key : String)
    (v : PyVal) : LeafRec v (scalarLeaf pd t key v) := by
  unfold LeafRec scalarLeaf
  refine ⟨_, rfl, ?_, ?_⟩
  · simp [lookupJ]
  · exact ⟨(correlate_field_with_polygons key v pd t).map (fun p =>
        PyVal.vobj [("points", PyVal.varr (p.points.map PyVal.vnum)),
                    ("pageNumber", PyVal.vnum (p.pageNumber : ℚ))]),
      by simp [lookupJ, bpJson]⟩

/-- The record built for a non-dict array element is a leaf record. -/
theorem leafRec_arrayLeaf (pd : PolygonData) (t : ℚ) (key : String)
    (item : PyVal) : LeafRec item (arrayLeaf pd t key item) := by
  unfold LeafRec arrayLeaf
  refine ⟨_, rfl, ?_, ?_⟩
  · simp [lookupJ]
  · exact ⟨(correlate_field_with_polygons key item pd t).map (fun p =>
        PyVal.vobj [("points", PyVal.varr (p.points.map PyVal.vnum)),
                    ("pageNumber", PyVal.vnum (p.pageNumber : ℚ))]),
      by simp [lookupJ, bpJson]⟩

mutual
theorem processValue_mirrors (pd : PolygonData) (t : ℚ) (key : String) :
    (v : PyVal) → Mirrors v (processValue pd t key v)
  | PyVal.vnull =>
      Mirrors.scalar _ _ rfl (leafRec_scalarLeaf pd t key PyVal.vnull)
  | PyVal.vbool b =>
      Mirrors.scalar _ _ rfl (leafRec_scalarLeaf pd t key (PyVal.vbool b))
  | PyVal.vnum q =>
      Mirrors.scalar _ _ rfl (leafRec_scalarLeaf pd t key (PyVal.vnum q))
  | PyVal.vstr s =>
      Mirrors.scalar _ _ rfl (leafRec_scalarLeaf pd t key (PyVal.vstr s))
  | PyVal.varr items =>
      Mirrors.arr _ _ (processItems_mirrors pd t key items)
  | PyVal.vobj fields =>
      Mirrors.obj _ _ (processFields_mirrors pd t fields)

theorem processFields_mirrors (pd : PolygonData) (t : ℚ) :
    (fields : List (String × PyVal)) →
      FieldsMirror fields (processFields pd t fields)
  | [] => FieldsMirror.nil
  | (k, v) :: rest =>
      FieldsMirror.cons k v _ rest _ (processValue_mirrors pd t k v)
        (processFields_mirrors pd t rest)

theorem processItems_mirrors (pd : PolygonData) (t : ℚ) (key : String) :
    (items : List PyVal) → ItemsMirror items (processItems pd t key items)
  | [] => ItemsMirror.nil
  | PyVal.vobj fs :: rest =>
      ItemsMirror.consObj fs _ rest _ (processFields_mirrors pd t fs)
        (processItems_mirrors pd t key rest)
  | PyVal.vnull :: rest =>
      ItemsMirror.consLeaf _ _ rest _ rfl
        (leafRec_arrayLeaf pd t key PyVal.vnull)
        (processItems_mirrors pd t key rest)
  | PyVal.vbool b :: rest =>
      ItemsMirror.consLeaf _ _ rest _ rfl
        (leafRec_arrayLeaf pd t key (PyVal.vbool b))
        (processItems_mirrors pd t key rest)
  | PyVal.vnum q :: rest =>
      ItemsMirror.consLeaf _ _ rest _ rfl
        (leafRec_arrayLeaf pd t key (PyVal.vnum q))
        (processItems_mirrors pd t key rest)
  | PyVal.vstr s :: rest =>
      ItemsMirror.consLeaf _ _ rest _ rfl
        (leafRec_arrayLeaf pd t key (PyVal.vstr s))
        (processItems_mirrors pd t key rest)
  | PyVal.varr xs :: rest =>
      ItemsMirror.consLeaf _ _ rest _ rfl
        (leafRec_arrayLeaf pd t key (PyVal.varr xs))
        (processItems_mirrors pd t key rest)
end

/-- C7 (amended): enrichment mirrors the tree shape field-by-field and
index-by-index — excluded top-level keys are copied verbatim and every
other top-level value is related to its enrichment by `Mirrors`: dicts keep
their keys, lists keep their indices, scalars become leaf records with the
original value and an always-present (possibly empty) `boundingPolygons`
list; a list element that is itself a list is wrapped whole in such a
record rather than recursed. -/
theorem enrich_preserves_shape (pd : PolygonData) (t : ℚ)
    (extracted : List (String × PyVal)) :
    List.Forall₂ (fun kv rkv : String × PyVal => rkv.1 = kv.1 ∧
        (if kv.1 ∈ excludedKeys then rkv.2 = kv.2 else Mirrors kv.2 rkv.2))
      extracted (enrichFields pd t extracted) := by
  induction extracted with
  | nil => exact List.Forall₂.nil
  | cons kv rest ih =>
      simp only [enrichFields, List.map_cons]
      refine List.Forall₂.cons ?_ ih
      by_cases hk : kv.1 ∈ excludedKeys
      · simp [hk]
      · exact ⟨by simp [hk],
          by simpa [hk] using processValue_mirrors pd t kv.1 kv.2⟩

set_option maxRecDepth 4000 in
/-- Counterexample for C7 as stated: the claim promises the same indices at
*each* sequence level with every former scalar leaf replaced by a record,
but a list nested directly inside a list is wrapped whole: enriching
`{"a": [[1]]}` yields at index 0 a `{value, boundingPolygons}` record (not
a list), and the inner scalar `1` survives verbatim inside `value` instead
of being replaced by a record. -/
theorem nested_array_flattened_cex :
    processValue pdEmpty 90 "a" (PyVal.varr [PyVal.varr [PyVal.vnum 1]])
        = PyVal.varr [PyVal.vobj
            [("value", PyVal.varr [PyVal.vnum 1]),
             ("boundingPolygons", PyVal.varr [])]] ∧
      isArr (PyVal.vobj
            [("value", PyVal.varr [PyVal.vnum 1]),
             ("boundingPolygons", PyVal.varr [])]) = false :=
  ⟨by rfl, rfl⟩

/-- C9: the content of a well-formed Provider B response is determined by
the fallback chain — a `pages` list yields the markdown strings of the pages
joined in page order with a blank-line separator; otherwise the top-level
`content` string; otherwise `text`; otherwise `choices[0].message.content`;
and with none of these keys the content is the empty string, never an
error. -/
theorem extractOcrContent_fallback (fs : List (String × PyVal)) :
    (∀ pages parts, lookupJ fs "pages" = some (PyVal.varr pages) →
        markdownParts pages = some parts →
        extractOcrContent (PyVal.vobj fs)
          = some (String.intercalate "\n\n" parts)) ∧
    ((∀ pages, lookupJ fs "pages" ≠ some (PyVal.varr pages)) →
      (∀ s, lookupJ fs "content" = some (PyVal.vstr s) →
          extractOcrContent (PyVal.vobj fs) = some s) ∧
      (lookupJ fs "content" = none →
        (∀ s, lookupJ fs "text" = some (PyVal.vstr s) →
            extractOcrContent (PyVal.vobj fs) = some s) ∧
        (lookupJ fs "text" = none →
          (∀ cfs ms s rest, lookupJ fs "choices"
                = some (PyVal.varr (PyVal.vobj cfs :: rest)) →
              lookupJ cfs "message" = some (PyVal.vobj ms) →
              lookupJ ms "content" = some (PyVal.vstr s) →
              extractOcrContent (PyVal.vobj fs) = some s) ∧
          (lookupJ fs "choices" = none →
              extractOcrContent (PyVal.vobj fs) = some "")))) := by
  constructor
  · intro pages parts hpages hparts
    simp [extractOcrContent, jGet, hpages, hparts]
  · intro hnopages
    have hstep : extractOcrContent (PyVal.vobj fs)
        = (match lookupJ fs "content" with
           | some (PyVal.vstr s) => some s
           | some _ => none
           | none =>
             match lookupJ fs "text" with
             | some (PyVal.vstr s) => some s
             | some _ => none
             | none =>
               match lookupJ fs "choices" with
               | some (PyVal.varr (c :: _)) => choiceContent c
               | some (PyVal.varr []) => some ""
               | some _ => none
               | none => some "") := by
      cases hpg : lookupJ fs "pages" with
      | none =>
          unfold extractOcrContent
          simp [jGet, hpg]
      | some v =>
          cases v with
          | varr pages => exact absurd hpg (hnopages pages)
          | vnull => unfold extractOcrContent; simp [jGet, hpg]
          | vbool b => unfold extractOcrContent; simp [jGet, hpg]
          | vnum q => unfold extractOcrContent; simp [jGet, hpg]
          | vstr s => unfold extractOcrContent; simp [jGet, hpg]
          | vobj o => unfold extractOcrContent; simp [jGet, hpg]
    refine ⟨?_, ?_⟩
    · intro s hs
      rw [hstep, hs]
    · intro hcn
      refine ⟨?_, ?_⟩
      · intro s hs
        rw [hstep, hcn, hs]
      · intro htn
        refine ⟨?_, ?_⟩
        · intro cfs ms s rest hch hmsg hcont
          rw [hstep, hcn, htn, hch]
          simp [choiceContent, hmsg, hcont]
        · intro hchn
          rw [hstep, hcn, htn, hchn]

/-- Witness for C9: a two-page markdown response joins with a blank line;
a content-only response and an empty response take their fallbacks. -/
theorem extractOcrContent_fallback_witness :
    extractOcrContent (PyVal.vobj [("pages", PyVal.varr
        [PyVal.vobj [("markdown", PyVal.vstr "p1")],
         PyVal.vobj [("markdown", PyVal.vstr "p2")]])])
      = some "p1\n\np2" ∧
    extractOcrContent (PyVal.vobj [("content", PyVal.vstr "cc")]) = some "cc" ∧
    extractOcrContent (PyVal.vobj []) = some "" := by
  refine ⟨?_, ?_, ?_⟩
  · exact (extractOcrContent_fallback _).1
      [PyVal.vobj [("markdown", PyVal.vstr "p1")],
       PyVal.vobj [("markdown", PyVal.vstr "p2")]]
      ["p1", "p2"] rfl rfl
  · exact ((extractOcrContent_fallback [("content", PyVal.vstr "cc")]).2
      (fun pages h => by simp [lookupJ] at h)).1 "cc" rfl
  · exact ((((extractOcrContent_fallback []).2
      (fun pages h => by simp [lookupJ] at h)).2 rfl).2 rfl).2 rfl
